import Mathlib

/-!
Verification development for the Guam SVI calculator pipeline.

This file gives a shallow embedding of the core of the repository:

* the raw-variable token pattern VAR_RE / TOKEN_RE and the helpers of
  src/fetch.py (extract_codes, dedupe_preserve_order,
  group_variable_codes_by_dataset, download_data post-processing);
* the alias machinery of src/compute_hsi.py (_load_alias_map,
  _evaluate_aliases including the token substitution into pandas.eval,
  _add_percentiles with the pandas rank(pct=True) semantics, hsi);
* the per-dataset cache-fallback driver and the merge stage of src/main.py.

Dataframe cells are modelled by the type Val, mirroring the IEEE float
values that occur in the pandas frames: NaN (missing), signed infinities,
and finite values represented as exact rationals.
-/

/-- Uppercase ASCII letter, the character class A-Z of the token pattern. -/
def isUp (c : Char) : Bool := 'A' ≤ c && c ≤ 'Z'

/-- Lowercase ASCII letter. -/
def isLow (c : Char) : Bool := 'a' ≤ c && c ≤ 'z'

/-- ASCII digit, the character class 0-9 of the token pattern. -/
def isDigitCh (c : Char) : Bool := '0' ≤ c && c ≤ '9'

/-- Word character in the sense of the regex word-boundary anchor:
letters, digits, or underscore (the inputs are ASCII). -/
def isWordCh (c : Char) : Bool := isUp c || isLow c || isDigitCh c || c == '_'

/-- Attempt to match the raw-variable pattern
  [A-Z]{1,4}[0-9]{0,3}_[0-9]{4}[A-Z]?
at the head of the character list, returning the number of characters
matched, including the trailing word-boundary requirement of VAR_RE /
TOKEN_RE.  Greedy matching with backtracking collapses to: the maximal
uppercase run (which must have length 1..4), then the maximal digit run
(length at most 3), an underscore, exactly four digits, and an optional
uppercase letter; the next character, if any, must not be a word
character.  The word boundary before the match is the scanner's duty. -/
def matchTokenAt (s : List Char) : Option Nat :=
  let u := s.takeWhile isUp
  if u.length = 0 || 4 < u.length then none
  else
    let s1 := s.drop u.length
    let d := s1.takeWhile isDigitCh
    if 3 < d.length then none
    else
      match s1.drop d.length with
      | '_' :: r =>
        match r with
        | a :: b :: c :: e :: r2 =>
          if isDigitCh a && isDigitCh b && isDigitCh c && isDigitCh e then
            match r2 with
            | [] => some (u.length + d.length + 5)
            | f :: r3 =>
              if isUp f then
                match r3 with
                | [] => some (u.length + d.length + 6)
                | g :: _ => if isWordCh g then none else some (u.length + d.length + 6)
              else if isWordCh f then none else some (u.length + d.length + 5)
          else none
        | _ => none
      | _ => none

/-- TOKEN_RE.fullmatch: the whole string is one raw-variable token. -/
def tokenFullmatch (l : List Char) : Bool := matchTokenAt l == some l.length

/-- Scanner behind re.findall for VAR_RE / TOKEN_RE: walk the string
left to right; at each position with a word boundary before it try to
match the token pattern; on success emit the token and continue after
it (matches do not overlap), otherwise advance one character.  The
extra fuel argument bounds the recursion; one unit per consumed
character suffices. -/
def findTokensAux : Nat → List Char → Bool → List String
  | 0, _, _ => []
  | _ + 1, [], _ => []
  | fuel + 1, c :: rest, prevWord =>
    if prevWord then findTokensAux fuel rest (isWordCh c)
    else
      match matchTokenAt (c :: rest) with
      | some n =>
        String.mk ((c :: rest).take n) :: findTokensAux fuel ((c :: rest).drop n) true
      | none => findTokensAux fuel rest (isWordCh c)

/-- fetch._extract_codes / VAR_RE.findall (identical to TOKEN_RE.findall of
compute_hsi.py): every raw-variable token of the expression in order of
appearance. -/
def extractCodes (s : String) : List String :=
  findTokensAux (s.data.length + 1) s.data false

/-- fetch._dedupe_preserve_order: drop duplicates, keeping the first
occurrence of each element in its original position. -/
def dedupePreserveOrder (l : List String) : List String :=
  l.foldl (fun acc x => if x ∈ acc then acc else acc ++ [x]) []

/-- One row of configs/variables.csv as read by csv.DictReader: headers
alias, dataset, variable.  The first and third columns are called
aliasCol and variableCol here because their source names are Lean
keywords. -/
structure ConfigRow where
  aliasCol : String
  dataset : String
  variableCol : String
deriving DecidableEq

/-- Append every code that the per-dataset bucket has not seen yet
(the seen-set of group_variable_codes_by_dataset tracks exactly the
bucket's members). -/
def insertCodes (bucket : List String) (codes : List String) : List String :=
  codes.foldl (fun b c => if c ∈ b then b else b ++ [c]) bucket

/-- ASCII whitespace for the python strip calls of the pipeline. -/
def isSpaceCh (c : Char) : Bool := c = ' ' || c = '\t' || c = '\n' || c = '\r'

/-- python str.strip on the ASCII configuration strings. -/
def strTrim (s : String) : String :=
  String.mk (((s.data.dropWhile isSpaceCh).reverse.dropWhile isSpaceCh).reverse)

/-- Uppercase one ASCII character. -/
def toUpperCh (c : Char) : Char := if isLow c then Char.ofNat (c.toNat - 32) else c

/-- python str.upper on the ASCII alias names. -/
def strToUpper (s : String) : String := String.mk (s.data.map toUpperCh)

/-- One row of the reader loop of fetch.group_variable_codes_by_dataset:
look up (or create, preserving insertion order) the bucket of the row's
stripped dataset and add the row's codes to it. -/
def groupStep (bs : List (String × List String)) (r : ConfigRow) : List (String × List String) :=
  if strTrim r.dataset ∈ bs.map Prod.fst then
    bs.map (fun p =>
      if p.1 = strTrim r.dataset
      then (strTrim r.dataset, insertCodes p.2 (extractCodes r.variableCol))
      else p)
  else bs ++ [(strTrim r.dataset, insertCodes [] (extractCodes r.variableCol))]

/-- fetch.group_variable_codes_by_dataset: bucket raw codes by stripped
dataset slug, then the final pass re-applies _dedupe_preserve_order to
every bucket. -/
def groupVariableCodesByDataset (rows : List ConfigRow) : List (String × List String) :=
  (rows.foldl groupStep []).map (fun p => (p.1, dedupePreserveOrder p.2))

/-- Lookup in an insertion-ordered association list (python dict read). -/
def lookupName {α : Type} (m : List (String × α)) (k : String) : Option α :=
  (m.find? (fun p => p.1 = k)).map Prod.snd

/-- Python dict insertion: an existing key keeps its position and gets the
new value, a new key is appended at the end. -/
def dictInsert {α : Type} (m : List (String × α)) (k : String) (v : α) : List (String × α) :=
  if k ∈ m.map Prod.fst then m.map (fun p => if p.1 = k then (k, v) else p)
  else m ++ [(k, v)]

/-- compute_hsi._load_alias_map: the dict comprehension
  alias.strip() maps to variable.strip()
over all rows; a repeated alias silently keeps the last expression. -/
def loadAliasMap (rows : List ConfigRow) : List (String × String) :=
  rows.foldl (fun m r => dictInsert m (strTrim r.aliasCol) (strTrim r.variableCol)) []

/-- Kernel-evaluable rational addition: cross-multiplied numerators over
the product denominator, normalized by mkRat.  Equal to Rat addition
(theorem qAdd_eq below); spelled this way because the Rat arithmetic of
the library is sealed against kernel reduction. -/
def qAdd (a b : ℚ) : ℚ := mkRat (a.num * (b.den : ℤ) + b.num * (a.den : ℤ)) (a.den * b.den)

/-- Kernel-evaluable rational subtraction (theorem qSub_eq below). -/
def qSub (a b : ℚ) : ℚ := mkRat (a.num * (b.den : ℤ) - b.num * (a.den : ℤ)) (a.den * b.den)

/-- Kernel-evaluable rational multiplication (theorem qMul_eq below). -/
def qMul (a b : ℚ) : ℚ := mkRat (a.num * b.num) (a.den * b.den)

/-- Kernel-evaluable rational inverse, zero for zero (theorem qInv_eq
below). -/
def qInv (a : ℚ) : ℚ := mkRat (Int.sign a.num * (a.den : ℤ)) a.num.natAbs

/-- Kernel-evaluable rational division, via the inverse. -/
def qDiv (a b : ℚ) : ℚ := qMul a (qInv b)

/-- A pandas cell value: NaN (missing), plus or minus infinity, or a
finite number modelled as an exact rational. -/
inductive Val where
  | nan : Val
  | inf : Val
  | ninf : Val
  | fin : ℚ → Val
deriving DecidableEq

/-- IEEE negation as numpy performs it elementwise. -/
def npNeg : Val → Val
  | Val.nan => Val.nan
  | Val.inf => Val.ninf
  | Val.ninf => Val.inf
  | Val.fin q => Val.fin (-q)

/-- IEEE addition as numpy performs it elementwise: NaN propagates and
opposite infinities give NaN. -/
def npAdd : Val → Val → Val
  | Val.nan, _ => Val.nan
  | _, Val.nan => Val.nan
  | Val.inf, Val.ninf => Val.nan
  | Val.ninf, Val.inf => Val.nan
  | Val.inf, _ => Val.inf
  | _, Val.inf => Val.inf
  | Val.ninf, _ => Val.ninf
  | _, Val.ninf => Val.ninf
  | Val.fin a, Val.fin b => Val.fin (qAdd a b)

/-- IEEE subtraction, derived from addition and negation. -/
def npSub (a b : Val) : Val := npAdd a (npNeg b)

/-- IEEE multiplication as numpy performs it elementwise: NaN propagates
and zero times infinity gives NaN. -/
def npMul : Val → Val → Val
  | Val.nan, _ => Val.nan
  | _, Val.nan => Val.nan
  | Val.inf, Val.inf => Val.inf
  | Val.inf, Val.ninf => Val.ninf
  | Val.ninf, Val.inf => Val.ninf
  | Val.ninf, Val.ninf => Val.inf
  | Val.inf, Val.fin b => if b = 0 then Val.nan else if 0 < b then Val.inf else Val.ninf
  | Val.fin a, Val.inf => if a = 0 then Val.nan else if 0 < a then Val.inf else Val.ninf
  | Val.ninf, Val.fin b => if b = 0 then Val.nan else if 0 < b then Val.ninf else Val.inf
  | Val.fin a, Val.ninf => if a = 0 then Val.nan else if 0 < a then Val.ninf else Val.inf
  | Val.fin a, Val.fin b => Val.fin (qMul a b)

/-- IEEE division as numpy performs it elementwise (no exception is
raised): NaN propagates, zero over zero is NaN, a nonzero value over
zero is a signed infinity, infinity over zero is infinity, a finite
value over infinity is zero, infinity over infinity is NaN. -/
def npDiv : Val → Val → Val
  | Val.nan, _ => Val.nan
  | _, Val.nan => Val.nan
  | Val.inf, Val.inf => Val.nan
  | Val.inf, Val.ninf => Val.nan
  | Val.ninf, Val.inf => Val.nan
  | Val.ninf, Val.ninf => Val.nan
  | Val.inf, Val.fin b => if 0 ≤ b then Val.inf else Val.ninf
  | Val.ninf, Val.fin b => if 0 ≤ b then Val.ninf else Val.inf
  | Val.fin _, Val.inf => Val.fin 0
  | Val.fin _, Val.ninf => Val.fin 0
  | Val.fin a, Val.fin b =>
    if b = 0 then (if a = 0 then Val.nan else if 0 < a then Val.inf else Val.ninf)
    else Val.fin (qDiv a b)

/-- Strict order on the non-NaN values, as numpy compares them for
ranking: minus infinity below every finite value below plus infinity. -/
def valLt : Val → Val → Bool
  | Val.ninf, Val.ninf => false
  | Val.ninf, Val.nan => false
  | Val.ninf, _ => true
  | Val.fin _, Val.inf => true
  | Val.fin a, Val.fin b => a < b
  | _, _ => false

/-- A pandas dataframe, modelled column-major: an insertion-ordered list
of named columns of cell values. -/
abbrev Table := List (String × List Val)

/-- The column labels in order. -/
def colNames (df : Table) : List String := df.map Prod.fst

/-- Column access df[name], none when the label is absent (KeyError). -/
def getCol (df : Table) (n : String) : Option (List Val) := lookupName df n

/-- Number of rows; all columns of a well-formed frame have this length. -/
def nrows (df : Table) : Nat :=
  match df with
  | [] => 0
  | p :: _ => p.2.length

/-- Column assignment df[name] = values: an existing column is replaced
in place, a new one is appended on the right. -/
def setCol (df : Table) (n : String) (c : List Val) : Table :=
  if n ∈ colNames df then df.map (fun p => if p.1 = n then (n, c) else p)
  else df ++ [(n, c)]

/-- A column of NaN of the frame's row count: the scalar np.nan broadcast
over the frame. -/
def nanCol (df : Table) : List Val := List.replicate (nrows df) Val.nan

/-- The population-denominator aliases skipped by _add_percentiles. -/
def skipAliases : List String := ["E_TOTPOP", "TOT_POP", "TOTPOP"]

/-- pandas Series.rank(pct=True) with the default settings used by the
source (method is average, ascending, na_option keep): a NaN entry ranks
NaN; every other entry ranks as its average one-based position among the
non-NaN entries, divided by the count of non-NaN entries. -/
def rankPct (col : List Val) : List Val :=
  let present := col.filter (fun v => v != Val.nan)
  let m := present.length
  col.map (fun v =>
    if v = Val.nan then Val.nan
    else
      let less := (present.filter (fun w => valLt w v)).length
      let eq := (present.filter (fun w => w == v)).length
      Val.fin (mkRat ((2 * less + eq + 1 : ℕ) : ℤ) (2 * m)))

/-- Floor of a rational, computed by floor division of the numerator by
the (positive) denominator so that kernel evaluation stays unfolding. -/
def ratFloor (q : ℚ) : ℤ := Int.fdiv q.num (q.den : ℤ)

/-- Round to the nearest integer, ties to even, as numpy rounds. -/
def roundHalfEven (q : ℚ) : ℤ :=
  let f := ratFloor q
  let r := qSub q (mkRat f 1)
  if r < mkRat 1 2 then f
  else if mkRat 1 2 < r then f + 1
  else if f % 2 = 0 then f else f + 1

/-- Series.round(4): finite values are rounded to four decimal places
(ties to even), NaN and the infinities pass through. -/
def round4 : Val → Val
  | Val.fin q => Val.fin (mkRat (roundHalfEven (qMul q (mkRat 10000 1))) 10000)
  | v => v

/-- One alias of _add_percentiles: skip the population denominators
(case-insensitive), otherwise write the SPL_ copy of the alias column
and the RPL_ rounded percentile rank. -/
def addPercentilesStep (df : Table) (a : String) : Table :=
  if strToUpper a ∈ skipAliases then df
  else
    setCol (setCol df ("SPL_" ++ a) ((getCol df a).getD []))
      ("RPL_" ++ a) ((rankPct ((getCol df a).getD [])).map round4)

/-- compute_hsi._add_percentiles over its alias list (the copy df.copy()
at entry changes nothing observable in this value model). -/
def addPercentiles (df : Table) (aliases : List String) : Table :=
  aliases.foldl addPercentilesStep df

/-- The single-quote character, written by code point to keep the
scanner of this file simple. -/
def quoteChar : Char := Char.ofNat 39

/-- Python str.replace: replace every non-overlapping occurrence of tok
(scanning left to right) by repl.  The replacement text is not
re-scanned.  Fuel: one unit per consumed source character. -/
def strReplaceAux : Nat → List Char → List Char → List Char → List Char
  | 0, s, _, _ => s
  | fuel + 1, s, tok, repl =>
    match s with
    | [] => []
    | c :: rest =>
      if tok ≠ [] ∧ tok.isPrefixOf s then repl ++ strReplaceAux fuel (s.drop tok.length) tok repl
      else c :: strReplaceAux fuel rest tok repl

/-- Python str.replace on strings. -/
def strReplace (s tok repl : String) : String :=
  String.mk (strReplaceAux (s.data.length + 1) s.data tok.data repl.data)

/-- The token substitution loop of _evaluate_aliases: for every token the
scanner found (duplicates included), replace all occurrences of the token
in the working string by df['TOKEN'].  A token that occurs twice is
wrapped twice, corrupting the expression, exactly as the source does. -/
def buildSafeExpr (expr : String) : String :=
  (extractCodes expr).foldl
    (fun acc t =>
      strReplace acc t ("df[" ++ String.mk [quoteChar] ++ t ++ String.mk [quoteChar] ++ "]"))
    expr

/-- Lexical tokens of the restricted python expression grammar reaching
pandas.eval: numbers, identifiers, quoted strings, arithmetic operators,
parentheses and brackets. -/
inductive Tok where
  | num : ℚ → Tok
  | id : String → Tok
  | qstr : String → Tok
  | plus : Tok
  | minus : Tok
  | star : Tok
  | slash : Tok
  | lpar : Tok
  | rpar : Tok
  | lbr : Tok
  | rbr : Tok
deriving DecidableEq

/-- Decimal digits to a natural number. -/
def digitsToNat (l : List Char) : Nat :=
  l.foldl (fun n c => n * 10 + (c.toNat - '0'.toNat)) 0

/-- Integer part and fraction part to an exact rational. -/
def decimalToRat (ip fp : List Char) : ℚ :=
  mkRat ((digitsToNat ip * 10 ^ fp.length + digitsToNat fp : ℕ) : ℤ) (10 ^ fp.length)

/-- Identifier leading character: letter or underscore. -/
def isIdentStart (c : Char) : Bool := isUp c || isLow c || c == '_'

/-- Tokenizer for the expression strings handed to pandas.eval with
engine python.  Anything outside the modelled fragment (which covers all
expressions the pipeline can build from the configuration: arithmetic,
parentheses, df['TOKEN'] subscripts, and the corrupted forms the naive
substitution can produce) lexes to none, standing for an evaluation
error.  Fuel: one unit per consumed character. -/
def tokenizeAux : Nat → List Char → Option (List Tok)
  | 0, _ => none
  | _ + 1, [] => some []
  | fuel + 1, c :: cs =>
    if c = ' ' then tokenizeAux fuel cs
    else if c = '+' then (tokenizeAux fuel cs).map (fun ts => Tok.plus :: ts)
    else if c = '-' then (tokenizeAux fuel cs).map (fun ts => Tok.minus :: ts)
    else if c = '*' then (tokenizeAux fuel cs).map (fun ts => Tok.star :: ts)
    else if c = '/' then (tokenizeAux fuel cs).map (fun ts => Tok.slash :: ts)
    else if c = '(' then (tokenizeAux fuel cs).map (fun ts => Tok.lpar :: ts)
    else if c = ')' then (tokenizeAux fuel cs).map (fun ts => Tok.rpar :: ts)
    else if c = '[' then (tokenizeAux fuel cs).map (fun ts => Tok.lbr :: ts)
    else if c = ']' then (tokenizeAux fuel cs).map (fun ts => Tok.rbr :: ts)
    else if c = quoteChar then
      let body := cs.takeWhile (fun x => x ≠ quoteChar)
      match cs.drop body.length with
      | q :: rest =>
        if q = quoteChar then (tokenizeAux fuel rest).map (fun ts => Tok.qstr (String.mk body) :: ts)
        else none
      | [] => none
    else if isDigitCh c || c = '.' then
      let body := (c :: cs).takeWhile (fun x => isDigitCh x || x == '.')
      let rest := (c :: cs).drop body.length
      let ip := body.takeWhile isDigitCh
      match body.drop ip.length with
      | [] =>
        if ip.length = 0 then none
        else (tokenizeAux fuel rest).map (fun ts => Tok.num (digitsToNat ip : ℚ) :: ts)
      | dot :: fp =>
        if dot = '.' ∧ fp.all isDigitCh ∧ 0 < ip.length + fp.length then
          (tokenizeAux fuel rest).map (fun ts => Tok.num (decimalToRat ip fp) :: ts)
        else none
    else if isIdentStart c then
      let body := (c :: cs).takeWhile isWordCh
      let rest := (c :: cs).drop body.length
      (tokenizeAux fuel rest).map (fun ts => Tok.id (String.mk body) :: ts)
    else none

/-- Tokenize a whole expression string. -/
def tokenize (s : String) : Option (List Tok) := tokenizeAux (s.data.length + 1) s.data

/-- Abstract syntax of the evaluated expressions: literals, bare names,
df['NAME'] column subscripts, unary minus, and the four operators. -/
inductive PExpr where
  | num : ℚ → PExpr
  | var : String → PExpr
  | col : String → String → PExpr
  | neg : PExpr → PExpr
  | add : PExpr → PExpr → PExpr
  | sub : PExpr → PExpr → PExpr
  | mul : PExpr → PExpr → PExpr
  | div : PExpr → PExpr → PExpr

mutual

/-- Additive level of the recursive-descent expression grammar. -/
def parseE : Nat → List Tok → Option (PExpr × List Tok)
  | 0, _ => none
  | fuel + 1, ts =>
    match parseT fuel ts with
    | some (e, r) => parseERest fuel e r
    | none => none

/-- Left-associated chain of + and - continuations. -/
def parseERest : Nat → PExpr → List Tok → Option (PExpr × List Tok)
  | 0, _, _ => none
  | fuel + 1, acc, ts =>
    match ts with
    | Tok.plus :: r =>
      match parseT fuel r with
      | some (e, r2) => parseERest fuel (PExpr.add acc e) r2
      | none => none
    | Tok.minus :: r =>
      match parseT fuel r with
      | some (e, r2) => parseERest fuel (PExpr.sub acc e) r2
      | none => none
    | _ => some (acc, ts)

/-- Multiplicative level of the grammar. -/
def parseT : Nat → List Tok → Option (PExpr × List Tok)
  | 0, _ => none
  | fuel + 1, ts =>
    match parseF fuel ts with
    | some (e, r) => parseTRest fuel e r
    | none => none

/-- Left-associated chain of * and / continuations. -/
def parseTRest : Nat → PExpr → List Tok → Option (PExpr × List Tok)
  | 0, _, _ => none
  | fuel + 1, acc, ts =>
    match ts with
    | Tok.star :: r =>
      match parseF fuel r with
      | some (e, r2) => parseTRest fuel (PExpr.mul acc e) r2
      | none => none
    | Tok.slash :: r =>
      match parseF fuel r with
      | some (e, r2) => parseTRest fuel (PExpr.div acc e) r2
      | none => none
    | _ => some (acc, ts)

/-- Unary-minus level of the grammar. -/
def parseF : Nat → List Tok → Option (PExpr × List Tok)
  | 0, _ => none
  | fuel + 1, Tok.minus :: r =>
    match parseF fuel r with
    | some (e, r2) => some (PExpr.neg e, r2)
    | none => none
  | fuel + 1, ts => parseA fuel ts

/-- Atoms: literals, names, df['NAME'] subscripts, parenthesised
subexpressions. -/
def parseA : Nat → List Tok → Option (PExpr × List Tok)
  | 0, _ => none
  | _ + 1, Tok.num q :: r => some (PExpr.num q, r)
  | _ + 1, Tok.id s :: Tok.lbr :: Tok.qstr n :: Tok.rbr :: r => some (PExpr.col s n, r)
  | _ + 1, Tok.id s :: r => some (PExpr.var s, r)
  | fuel + 1, Tok.lpar :: r =>
    match parseE fuel r with
    | some (e, Tok.rpar :: r2) => some (e, r2)
    | _ => none
  | _, _ => none

end

/-- Parse a whole expression string; leftover tokens are a syntax error. -/
def parseExprString (s : String) : Option PExpr :=
  match tokenize s with
  | none => none
  | some ts =>
    match parseE (8 * ts.length + 16) ts with
    | some (e, []) => some e
    | _ => none

/-- An intermediate pandas.eval value: a python scalar or a Series. -/
inductive SV where
  | sc : ℚ → SV
  | ser : List Val → SV

/-- Apply a binary operator to two intermediate values: scalars combine
by python arithmetic (fs, which can raise, e.g. ZeroDivisionError),
a scalar against a Series broadcasts, two Series combine elementwise
with the numpy semantics f. -/
def applyBin (f : Val → Val → Val) (fs : ℚ → ℚ → Option ℚ) : SV → SV → Option SV
  | SV.sc a, SV.sc b => (fs a b).map SV.sc
  | SV.sc a, SV.ser l => some (SV.ser (l.map (fun x => f (Val.fin a) x)))
  | SV.ser l, SV.sc b => some (SV.ser (l.map (fun x => f x (Val.fin b))))
  | SV.ser l, SV.ser l2 => some (SV.ser (List.zipWith f l l2))

/-- Evaluate a parsed expression against the frame, as pandas.eval with
engine python does over the namespace holding only df and np: a bare
name is an evaluation error (NameError; the module name np alone is of
no arithmetic use and is conservatively an error too, no configuration
expression evaluates it), df['NAME'] is a column lookup that raises on a
missing label, and the operators follow the numpy elementwise semantics
on Series and python arithmetic on scalars. -/
def evalE (df : Table) : PExpr → Option SV
  | PExpr.num q => some (SV.sc q)
  | PExpr.var _ => none
  | PExpr.col s n => if s = "df" then (getCol df n).map SV.ser else none
  | PExpr.neg a =>
    (evalE df a).map (fun v =>
      match v with
      | SV.sc q => SV.sc (-q)
      | SV.ser l => SV.ser (l.map npNeg))
  | PExpr.add a b =>
    match evalE df a, evalE df b with
    | some x, some y => applyBin npAdd (fun p q => some (qAdd p q)) x y
    | _, _ => none
  | PExpr.sub a b =>
    match evalE df a, evalE df b with
    | some x, some y => applyBin npSub (fun p q => some (qSub p q)) x y
    | _, _ => none
  | PExpr.mul a b =>
    match evalE df a, evalE df b with
    | some x, some y => applyBin npMul (fun p q => some (qMul p q)) x y
    | _, _ => none
  | PExpr.div a b =>
    match evalE df a, evalE df b with
    | some x, some y => applyBin npDiv (fun p q => if q = 0 then none else some (qDiv p q)) x y
    | _, _ => none

/-- The pandas.eval call of _evaluate_aliases on the substituted
expression: build the safe expression by token substitution, parse and
evaluate it; none models any raised exception.  A scalar result
broadcasts over the frame on assignment. -/
def pdEval (df : Table) (expr : String) : Option (List Val) :=
  match parseExprString (buildSafeExpr expr) with
  | none => none
  | some e =>
    match evalE df e with
    | some (SV.sc q) => some (List.replicate (nrows df) (Val.fin q))
    | some (SV.ser l) => some l
    | none => none

/-- One alias of the _evaluate_aliases loop: skip when the alias is
already a column; a full-token expression copies the referenced column
(or broadcasts NaN when absent, via df.get with to_numeric, which is the
identity on the numeric columns of this model); otherwise evaluate the
substituted compound expression, adding percentile columns on success
and an all-NaN alias column on any error. -/
def evalStep (df : Table) (ae : String × String) : Table :=
  if ae.1 ∈ colNames df then df
  else if tokenFullmatch ae.2.data then
    addPercentiles
      (setCol df ae.1
        (match getCol df ae.2 with
          | some c => c
          | none => nanCol df))
      [ae.1]
  else
    match pdEval df ae.2 with
    | some s => addPercentiles (setCol df ae.1 s) [ae.1]
    | none => setCol df ae.1 (nanCol df)

/-- compute_hsi._evaluate_aliases: one pass over the alias map in
insertion order. -/
def evaluateAliases (df : Table) (m : List (String × String)) : Table :=
  m.foldl evalStep df

/-- compute_hsi.hsi with the configuration already read into rows: load
the alias map, then evaluate the aliases (which also adds the SPL_ and
RPL_ columns). -/
def hsi (df : Table) (rows : List ConfigRow) : Table :=
  evaluateAliases df (loadAliasMap rows)

/-- The geography-key tuple of row i of a frame (missing entries read
NaN; the run's frames always carry all key columns). -/
def keyTuple (keys : List String) (df : Table) (i : Nat) : List Val :=
  keys.map (fun k => ((getCol df k).getD []).getD i Val.nan)

/-- The (left row, matching right row) index pairs of
t1.merge(t2, on=keys, how=left): every row of t1 in order, paired with
each matching row of t2 in order, or with none when t2 has no match. -/
def joinPairs (keys : List String) (t1 t2 : Table) : List (Nat × Option Nat) :=
  (List.range (nrows t1)).flatMap (fun i =>
    if ((List.range (nrows t2)).filter (fun j => keyTuple keys t2 j = keyTuple keys t1 i)).isEmpty
    then [(i, none)]
    else ((List.range (nrows t2)).filter
      (fun j => keyTuple keys t2 j = keyTuple keys t1 i)).map (fun j => (i, some j)))

/-- pandas t1.merge(t2, on=keys, how=left): the columns of t1 followed by
the non-key columns of t2, realigned along the join pairs; an unmatched
left row reads NaN in the right columns.  Duplicate key tuples on the
right produce one output row per match — nothing detects them. -/
def leftJoin (keys : List String) (t1 t2 : Table) : Table :=
  t1.map (fun p => (p.1, (joinPairs keys t1 t2).map (fun pr => p.2.getD pr.1 Val.nan)))
    ++ (t2.filter (fun p => p.1 ∉ keys)).map (fun p =>
        (p.1, (joinPairs keys t1 t2).map (fun pr =>
          match pr.2 with
          | some j => p.2.getD j Val.nan
          | none => Val.nan)))

/-- The merge loop of main.py step 3-C: fold the later frames into the
first by sequential left joins on the geography keys. -/
def mergeAll (keys : List String) (frames : List Table) : Table :=
  match frames with
  | [] => []
  | f :: rest => rest.foldl (fun acc t => leftJoin keys acc t) f

/-- main._assert_all_vars_present succeeds: every expected variable is a
column of the frame. -/
def allVarsPresent (df : Table) (expected : List String) : Prop :=
  ∀ v ∈ expected, v ∈ colNames df

instance (df : Table) (expected : List String) : Decidable (allVarsPresent df expected) :=
  inferInstanceAs (Decidable (∀ v ∈ expected, v ∈ colNames df))

/-- The cache file name of main.py: year_state_geography_slug.csv. -/
def cacheFileName (year state geography slug : String) : String :=
  year ++ "_" ++ state ++ "_" ++ geography ++ "_" ++ slug ++ ".csv"

/-- The cache directory as a keyed store of snapshot tables. -/
abbrev CacheStore := List (String × Table)

/-- Write-or-replace a snapshot (df.to_csv over the same file name). -/
def storePut (s : CacheStore) (k : String) (t : Table) : CacheStore := dictInsert s k t

/-- The except branch of the per-dataset loop of main.py: load the cached
snapshot when it exists and validate it, abort the run otherwise; an
incomplete snapshot raises out of the handler and also aborts. -/
def loadFromCache (codes : List String) (store : CacheStore) (key : String) :
    Except String (Table × CacheStore) :=
  match lookupName store key with
  | some c =>
    if allVarsPresent c codes then Except.ok (c, store)
    else Except.error ("cached copy is missing requested variables: " ++ key)
  | none => Except.error ("Fatal: no cached copy for dataset " ++ key ++ " and API fetch failed.")

/-- The per-dataset body of the loop of main.py step 3-B.  live is the
outcome of fetch.download_data (none when the call raised).  A live
table missing a requested variable fails validation and drops into the
cache fallback; a validated live table is persisted to the cache under
the dataset+year+state+geography key. -/
def processDataset (codes : List String) (live : Option Table) (store : CacheStore)
    (year state geography slug : String) : Except String (Table × CacheStore) :=
  match live with
  | some t =>
    if allVarsPresent t codes
    then Except.ok (t, storePut store (cacheFileName year state geography slug) t)
    else loadFromCache codes store (cacheFileName year state geography slug)
  | none => loadFromCache codes store (cacheFileName year state geography slug)

/-- Split a leading sign off a numeral. -/
def splitSign : List Char → Bool × List Char
  | '-' :: r => (true, r)
  | '+' :: r => (false, r)
  | l => (false, l)

/-- pandas.to_numeric on one string cell with errors coerce: strip
whitespace, then accept an optionally signed decimal numeral with an
optional fraction and an optional exponent; everything else coerces to
NaN (none here).  The named non-finite spellings are outside the
modelled value space of the Census responses. -/
def parseNumeric (s : String) : Option ℚ :=
  let p := splitSign (strTrim s).data
  let ip := p.2.takeWhile isDigitCh
  let l2 := p.2.drop ip.length
  let fp :=
    match l2 with
    | '.' :: r => r.takeWhile isDigitCh
    | _ => []
  let l3 :=
    match l2 with
    | '.' :: r => r.drop fp.length
    | _ => l2
  if ip.length + fp.length = 0 then none
  else
    let mant : ℚ := decimalToRat ip fp
    let signed := if p.1 then -mant else mant
    match l3 with
    | [] => some signed
    | c :: r =>
      if c = 'e' ∨ c = 'E' then
        let ep := splitSign r
        let ed := ep.2.takeWhile isDigitCh
        if ed.length = 0 ∨ ep.2.drop ed.length ≠ [] then none
        else if ep.1 then some (qDiv signed (mkRat ((10 ^ digitsToNat ed : ℕ) : ℤ) 1))
        else some (qMul signed (mkRat ((10 ^ digitsToNat ed : ℕ) : ℤ) 1))
      else none

/-- fetch.BAD_SENTINELS: the two official no-data sentinels. -/
def badSentinels : List ℚ := [-888888888, -999999999]

/-- Numeric coercion of one cell: parseable strings become finite
values, everything else NaN (never an error). -/
def toNumericCell (s : String) : Val :=
  match parseNumeric s with
  | some q => Val.fin q
  | none => Val.nan

/-- df.replace(BAD_SENTINELS, np.nan) on one numeric cell. -/
def maskSentinels (x : Val) : Val :=
  match x with
  | Val.fin q => if q ∈ badSentinels then Val.nan else x
  | v => v

/-- A cell of the cleaned dataset table: the geography and NAME columns
keep their strings, every other column holds numeric-or-missing values. -/
inductive CCell where
  | str : String → CCell
  | v : Val → CCell
deriving DecidableEq

/-- The dataset table as assembled from the JSON response rows: every
cell still a string. -/
abbrev RawTable := List (String × List String)

/-- The post-merge cleanup of fetch.download_data: coerce every column
outside NAME and the geography keys to numeric (errors to NaN), then
replace the sentinels by NaN.  The replace call also runs over the
geography and NAME columns, where the integer sentinels never equal a
string cell, so those columns pass through unchanged. -/
def cleanDownloadedTable (geokeys : List String) (t : RawTable) : List (String × List CCell) :=
  t.map (fun p =>
    if p.1 = "NAME" ∨ p.1 ∈ geokeys then (p.1, p.2.map CCell.str)
    else (p.1, p.2.map (fun s => CCell.v (maskSentinels (toNumericCell s)))))

/-- Every raw code referenced by the expressions of the rows of one
dataset, duplicates included, in row order (the reference list the
grouper deduplicates). -/
def referencedCodes (rows : List ConfigRow) (d : String) : List String :=
  (rows.filter (fun r => strTrim r.dataset = d)).flatMap (fun r => extractCodes r.variableCol)

/-- A one-row frame with a single raw decennial column, the running
example for the evaluator theorems. -/
def demoDf : Table := [("P1_0001N", [Val.fin 1])]

/-- The raw columns of the minority-share scenario of the specification,
three geographic rows with values (100,80), (50,50), (0,0). -/
def minorityDf : Table :=
  [("B03002_001E", [Val.fin 100, Val.fin 50, Val.fin 0]),
   ("B03002_003E", [Val.fin 80, Val.fin 50, Val.fin 0])]

/-- Four rows exercising every division case: (20,100), (0,50), (0,0)
and (-5,0) for the expression P1_0001N / P2_0001N. -/
def divDemoDf : Table :=
  [("P1_0001N", [Val.fin 20, Val.fin 0, Val.fin 0, Val.fin (-5)]),
   ("P2_0001N", [Val.fin 100, Val.fin 50, Val.fin 0, Val.fin 0])]

/-- First dataset frame of the merge counterexample: one geography row. -/
def dupKeyT1 : Table := [("state", [Val.fin 66]), ("A_0001E", [Val.fin 1])]

/-- Second dataset frame of the merge counterexample: the same geography
key appears twice. -/
def dupKeyT2 : Table := [("state", [Val.fin 66, Val.fin 66]), ("B_0001E", [Val.fin 2, Val.fin 3])]

/-- A frame already carrying a column named SPL_X next to a raw column. -/
def splDf : Table := [("SPL_X", [Val.fin 7]), ("P1_0001N", [Val.fin 1])]

/-- A raw downloaded frame with a sentinel cell, an unparseable cell and
a decimal cell in its data column. -/
def rawDemo : RawTable :=
  [("state", ["66"]), ("NAME", ["Hagatna"]), ("P1_0001N", ["-888888888", "abc", "12.5"])]

/-- The kernel-evaluable addition agrees with rational addition. -/
theorem qAdd_eq (a b : ℚ) : qAdd a b = a + b := by
  rw [Rat.add_def, Rat.normalize_eq_mkRat]; rfl

/-- The kernel-evaluable subtraction agrees with rational subtraction. -/
theorem qSub_eq (a b : ℚ) : qSub a b = a - b := by
  rw [Rat.sub_def, Rat.normalize_eq_mkRat]; rfl

/-- The kernel-evaluable multiplication agrees with rational
multiplication. -/
theorem qMul_eq (a b : ℚ) : qMul a b = a * b := by
  rw [Rat.mul_def, Rat.normalize_eq_mkRat]; rfl

/-- The kernel-evaluable inverse agrees with the rational inverse. -/
theorem qInv_eq (a : ℚ) : qInv a = a⁻¹ := by
  show qInv a = a.inv
  rw [Rat.inv_def]
  unfold qInv Rat.divInt
  match h : a.num with
  | Int.ofNat n =>
    cases n with
    | zero => simp
    | succ m =>
      simp only [Int.sign]
      rw [Int.one_mul]
      rfl
  | Int.negSucc n =>
    simp only [Int.sign, Int.natAbs]
    rw [← Rat.normalize_eq_mkRat (Nat.succ_ne_zero n)]
    congr 1
    omega

/-- The kernel-evaluable division agrees with rational division. -/
theorem qDiv_eq (a b : ℚ) : qDiv a b = a / b := by
  rw [qDiv, qMul_eq, qInv_eq, div_eq_mul_inv]

/-- Unfolding lookup over a cons cell. -/
theorem lookupName_cons {α : Type} (p : String × α) (m : List (String × α)) (k : String) :
    lookupName (p :: m) k = if p.1 = k then some p.2 else lookupName m k := by
  unfold lookupName
  by_cases h : p.1 = k
  · rw [List.find?_cons_of_pos _ (by simpa using h), if_pos h]
    rfl
  · rw [List.find?_cons_of_neg _ (by simpa using h), if_neg h]

/-- Replacing the entries keyed k does not change the key list. -/
theorem keys_map_replace {α : Type} (m : List (String × α)) (k : String) (v : α) :
    (m.map (fun p => if p.1 = k then (k, v) else p)).map Prod.fst = m.map Prod.fst := by
  induction m with
  | nil => rfl
  | cons p t ih =>
    by_cases hp : p.1 = k
    · simp [hp, ih]
    · simp [hp, ih]

/-- The key list after a dict insertion: unchanged when the key was
present, extended on the right otherwise. -/
theorem keys_dictInsert {α : Type} (m : List (String × α)) (k : String) (v : α) :
    (dictInsert m k v).map Prod.fst =
      if k ∈ m.map Prod.fst then m.map Prod.fst else m.map Prod.fst ++ [k] := by
  unfold dictInsert
  split
  · rw [keys_map_replace]
  · simp

/-- After replacing the entries keyed k, looking up k finds the new
value, provided k was a key. -/
theorem lookupName_map_replace_self {α : Type} (m : List (String × α)) (k : String) (v : α)
    (h : k ∈ m.map Prod.fst) :
    lookupName (m.map (fun p => if p.1 = k then (k, v) else p)) k = some v := by
  induction m with
  | nil => simp at h
  | cons p t ih =>
    by_cases hp : p.1 = k
    · simp only [List.map_cons, if_pos hp, lookupName_cons]
      simp
    · simp only [List.map_cons, if_neg hp, lookupName_cons, if_neg hp]
      have h2 : k = p.1 ∨ k ∈ t.map Prod.fst := by simpa only [List.map_cons, List.mem_cons] using h
      rcases h2 with e | h2
      · exact absurd e.symm hp
      · exact ih h2

/-- Appending a fresh entry and looking it up finds it. -/
theorem lookupName_append_singleton_self {α : Type} (m : List (String × α)) (k : String) (v : α)
    (h : k ∉ m.map Prod.fst) :
    lookupName (m ++ [(k, v)]) k = some v := by
  induction m with
  | nil => simp [lookupName_cons]
  | cons p t ih =>
    have hp : p.1 ≠ k := by
      intro e
      apply h
      simp only [List.map_cons, List.mem_cons]
      exact Or.inl e.symm
    rw [List.cons_append, lookupName_cons, if_neg hp]
    apply ih
    intro hm
    apply h
    simp only [List.map_cons, List.mem_cons]
    exact Or.inr hm

/-- Looking up the inserted key finds the inserted value. -/
theorem lookupName_dictInsert_self {α : Type} (m : List (String × α)) (k : String) (v : α) :
    lookupName (dictInsert m k v) k = some v := by
  unfold dictInsert
  split
  · exact lookupName_map_replace_self m k v (by assumption)
  · exact lookupName_append_singleton_self m k v (by assumption)

/-- Replacing entries keyed k leaves other lookups unchanged. -/
theorem lookupName_map_replace_ne {α : Type} (m : List (String × α)) (k x : String) (v : α)
    (h : x ≠ k) :
    lookupName (m.map (fun p => if p.1 = k then (k, v) else p)) x = lookupName m x := by
  induction m with
  | nil => rfl
  | cons p t ih =>
    by_cases hp : p.1 = k
    · simp only [List.map_cons, if_pos hp, lookupName_cons]
      rw [if_neg (fun e => h e.symm), if_neg (fun e : p.1 = x => h (e ▸ hp)), ih]
    · simp only [List.map_cons, if_neg hp, lookupName_cons, ih]

/-- Appending a fresh entry leaves other lookups unchanged. -/
theorem lookupName_append_singleton_ne {α : Type} (m : List (String × α)) (k x : String) (v : α)
    (h : x ≠ k) :
    lookupName (m ++ [(k, v)]) x = lookupName m x := by
  induction m with
  | nil =>
    rw [List.nil_append, lookupName_cons, if_neg (fun e => h e.symm)]
  | cons p t ih =>
    rw [List.cons_append, lookupName_cons, lookupName_cons, ih]

/-- Looking up any other key is unchanged by an insertion. -/
theorem lookupName_dictInsert_ne {α : Type} (m : List (String × α)) (k x : String) (v : α)
    (h : x ≠ k) : lookupName (dictInsert m k v) x = lookupName m x := by
  unfold dictInsert
  split
  · exact lookupName_map_replace_ne m k x v h
  · exact lookupName_append_singleton_ne m k x v h

/-- Lookup distributes over a value-only map of an association list. -/
theorem lookupName_map_value {α β : Type} (m : List (String × α)) (g : α → β) (x : String) :
    lookupName (m.map (fun p => (p.1, g p.2))) x = (lookupName m x).map g := by
  induction m with
  | nil => rfl
  | cons p t ih =>
    rw [List.map_cons, lookupName_cons, lookupName_cons]
    by_cases hp : p.1 = x
    · simp [hp]
    · simp [hp, ih]

/-- A key outside the key list looks up to none. -/
theorem lookupName_eq_none {α : Type} (m : List (String × α)) (x : String)
    (h : x ∉ m.map Prod.fst) : lookupName m x = none := by
  induction m with
  | nil => rfl
  | cons p t ih =>
    have hp : p.1 ≠ x := by
      intro e
      apply h
      simp only [List.map_cons, List.mem_cons]
      exact Or.inl e.symm
    rw [lookupName_cons, if_neg hp]
    apply ih
    intro hm
    apply h
    simp only [List.map_cons, List.mem_cons]
    exact Or.inr hm

/-- Inserting a concatenation is insertion of the parts in turn. -/
theorem insertCodes_append (b l1 l2 : List String) :
    insertCodes b (l1 ++ l2) = insertCodes (insertCodes b l1) l2 := by
  unfold insertCodes
  exact List.foldl_append _ _ _ _

/-- Membership after insertion: the old bucket or the inserted codes. -/
theorem mem_insertCodes {x : String} : ∀ (l b : List String),
    x ∈ insertCodes b l ↔ x ∈ b ∨ x ∈ l
  | [], b => by simp [insertCodes]
  | c :: t, b => by
    have step : insertCodes b (c :: t) = insertCodes (if c ∈ b then b else b ++ [c]) t := rfl
    rw [step, mem_insertCodes t _]
    by_cases hc : c ∈ b
    · rw [if_pos hc]
      constructor
      · rintro (h | h)
        · exact Or.inl h
        · exact Or.inr (List.mem_cons_of_mem _ h)
      · rintro (h | h)
        · exact Or.inl h
        · rcases List.mem_cons.mp h with e | h2
          · exact Or.inl (e ▸ hc)
          · exact Or.inr h2
    · rw [if_neg hc]
      constructor
      · rintro (h | h)
        · rcases List.mem_append.mp h with h1 | h1
          · exact Or.inl h1
          · exact Or.inr (List.mem_cons.mpr (Or.inl (List.mem_singleton.mp h1)))
        · exact Or.inr (List.mem_cons_of_mem _ h)
      · rintro (h | h)
        · exact Or.inl (List.mem_append.mpr (Or.inl h))
        · rcases List.mem_cons.mp h with e | h2
          · exact Or.inl (List.mem_append.mpr (Or.inr (by simp [e])))
          · exact Or.inr h2

/-- Insertion into a duplicate-free bucket keeps it duplicate-free. -/
theorem nodup_insertCodes : ∀ (l b : List String), b.Nodup → (insertCodes b l).Nodup
  | [], _, hb => hb
  | c :: t, b, hb => by
    have step : insertCodes b (c :: t) = insertCodes (if c ∈ b then b else b ++ [c]) t := rfl
    rw [step]
    by_cases hc : c ∈ b
    · rw [if_pos hc]
      exact nodup_insertCodes t b hb
    · rw [if_neg hc]
      apply nodup_insertCodes t
      apply List.Nodup.append hb (List.nodup_singleton c)
      intro x hx hx1
      exact hc ((List.mem_singleton.mp hx1) ▸ hx)

/-- Insertion appends, on the right, a subsequence of the inserted
codes. -/
theorem insertCodes_sublist : ∀ (l b : List String),
    ∃ l2, insertCodes b l = b ++ l2 ∧ l2.Sublist l
  | [], b => ⟨[], by simp [insertCodes], List.nil_sublist []⟩
  | c :: t, b => by
    have step : insertCodes b (c :: t) = insertCodes (if c ∈ b then b else b ++ [c]) t := rfl
    by_cases hc : c ∈ b
    · obtain ⟨l2, e, s⟩ := insertCodes_sublist t b
      exact ⟨l2, by rw [step, if_pos hc, e], s.trans (List.sublist_cons_self c t)⟩
    · obtain ⟨l2, e, s⟩ := insertCodes_sublist t (b ++ [c])
      refine ⟨c :: l2, ?_, s.cons₂ c⟩
      rw [step, if_neg hc, e, List.append_assoc]
      rfl

/-- Inserting fresh duplicate-free codes appends them verbatim. -/
theorem insertCodes_eq_append : ∀ (l b : List String),
    (∀ x ∈ l, x ∉ b) → l.Nodup → insertCodes b l = b ++ l
  | [], b, _, _ => by simp [insertCodes]
  | c :: t, b, hf, hn => by
    have step : insertCodes b (c :: t) = insertCodes (if c ∈ b then b else b ++ [c]) t := rfl
    have hc : c ∉ b := hf c (List.mem_cons_self c t)
    rw [step, if_neg hc]
    have ht : insertCodes (b ++ [c]) t = (b ++ [c]) ++ t := by
      apply insertCodes_eq_append t (b ++ [c])
      · intro x hx hmem
        rcases List.mem_append.mp hmem with h1 | h1
        · exact hf x (List.mem_cons_of_mem _ hx) h1
        · exact (List.nodup_cons.mp hn).1 ((List.mem_singleton.mp h1) ▸ hx)
      · exact (List.nodup_cons.mp hn).2
    rw [ht, List.append_assoc]
    rfl

/-- The deduplicator is insertion into an empty bucket. -/
theorem dedupePreserveOrder_eq (l : List String) :
    dedupePreserveOrder l = insertCodes [] l := rfl

/-- Deduplication preserves membership. -/
theorem mem_dedupePreserveOrder {x : String} (l : List String) :
    x ∈ dedupePreserveOrder l ↔ x ∈ l := by
  rw [dedupePreserveOrder_eq, mem_insertCodes]
  simp

/-- Deduplication output has no duplicates. -/
theorem nodup_dedupePreserveOrder (l : List String) : (dedupePreserveOrder l).Nodup := by
  rw [dedupePreserveOrder_eq]
  exact nodup_insertCodes l [] List.nodup_nil

/-- Deduplication keeps elements in first-seen order: the output is a
subsequence of the input. -/
theorem dedupePreserveOrder_sublist (l : List String) :
    (dedupePreserveOrder l).Sublist l := by
  rw [dedupePreserveOrder_eq]
  obtain ⟨l2, e, s⟩ := insertCodes_sublist l []
  rw [e, List.nil_append]
  exact s

/-- Deduplicating twice is the same as deduplicating once. -/
theorem dedupePreserveOrder_idem (l : List String) :
    dedupePreserveOrder (dedupePreserveOrder l) = dedupePreserveOrder l := by
  rw [dedupePreserveOrder_eq (dedupePreserveOrder l)]
  rw [insertCodes_eq_append _ [] (by intro x _ hx; exact (List.not_mem_nil x) hx)
    (nodup_dedupePreserveOrder l)]
  rfl

/-- C4 counterexample: a configuration table in which the alias A appears
twice with conflicting expressions does not make loading fail; the
registry silently returns the later definition. -/
theorem loadAliasMap_duplicate_counterexample :
    loadAliasMap [⟨"A", "dpgu", "P1_0001N"⟩, ⟨"A", "dpgu", "P2_0001N"⟩]
      = [("A", "P2_0001N")] := by decide

/-- C4 amended: loading the formula registry never rejects a duplicate
alias; a later row with the same (stripped) alias silently shadows the
earlier one — the map holds the last expression for that alias, and all
other aliases are unaffected by the added row. -/
theorem loadAliasMap_last_wins (rows : List ConfigRow) (r : ConfigRow) :
    lookupName (loadAliasMap (rows ++ [r])) (strTrim r.aliasCol) = some (strTrim r.variableCol)
    ∧ ∀ x, x ≠ strTrim r.aliasCol →
        lookupName (loadAliasMap (rows ++ [r])) x = lookupName (loadAliasMap rows) x := by
  have e : loadAliasMap (rows ++ [r])
      = dictInsert (loadAliasMap rows) (strTrim r.aliasCol) (strTrim r.variableCol) := by
    unfold loadAliasMap
    rw [List.foldl_append]
    rfl
  constructor
  · rw [e]
    exact lookupName_dictInsert_self _ _ _
  · intro x hx
    rw [e]
    exact lookupName_dictInsert_ne _ _ _ _ hx

/-- Witness for the amended C4 theorem at a concrete configuration. -/
theorem loadAliasMap_last_wins_witness :
    lookupName (loadAliasMap [⟨"B", "d", "P1_0001N"⟩, ⟨"A", "d", "P3_0003N"⟩]) "A"
        = some "P3_0003N"
    ∧ lookupName (loadAliasMap [⟨"B", "d", "P1_0001N"⟩, ⟨"A", "d", "P3_0003N"⟩]) "B"
        = lookupName (loadAliasMap [⟨"B", "d", "P1_0001N"⟩]) "B" := by
  have h := loadAliasMap_last_wins [⟨"B", "d", "P1_0001N"⟩] ⟨"A", "d", "P3_0003N"⟩
  have e1 : strTrim "A" = "A" := by decide
  have e2 : strTrim "P3_0003N" = "P3_0003N" := by decide
  constructor
  · rw [← e1, ← e2]
    exact h.1
  · exact h.2 "B" (by decide)

/-- Column assignment is exactly a dict insertion. -/
theorem setCol_eq_dictInsert (df : Table) (n : String) (c : List Val) :
    setCol df n c = dictInsert df n c := rfl

/-- The column labels are the keys of the association list. -/
theorem colNames_eq_keys (df : Table) : colNames df = df.map Prod.fst := rfl

/-- Assigning a column makes its label present. -/
theorem self_mem_colNames_setCol (df : Table) (n : String) (c : List Val) :
    n ∈ colNames (setCol df n c) := by
  rw [setCol_eq_dictInsert, colNames_eq_keys, keys_dictInsert]
  split
  · assumption
  · simp

/-- Assigning a column keeps every present label present. -/
theorem mem_colNames_setCol_of_mem (df : Table) (n x : String) (c : List Val)
    (h : x ∈ colNames df) : x ∈ colNames (setCol df n c) := by
  rw [setCol_eq_dictInsert, colNames_eq_keys, keys_dictInsert]
  split
  · exact h
  · exact List.mem_append.mpr (Or.inl h)

/-- For any other label, presence is unchanged by an assignment. -/
theorem mem_colNames_setCol_iff (df : Table) (n x : String) (c : List Val) (h : x ≠ n) :
    x ∈ colNames (setCol df n c) ↔ x ∈ colNames df := by
  rw [setCol_eq_dictInsert, colNames_eq_keys, keys_dictInsert]
  split
  · exact Iff.rfl
  · rw [List.mem_append]
    constructor
    · rintro (h1 | h1)
      · exact h1
      · exact absurd (List.mem_singleton.mp h1) h
    · exact fun h1 => Or.inl h1

/-- Reading back an assigned column. -/
theorem getCol_setCol_self (df : Table) (n : String) (c : List Val) :
    getCol (setCol df n c) n = some c :=
  lookupName_dictInsert_self df n c

/-- Reading any other column is unchanged by an assignment. -/
theorem getCol_setCol_ne (df : Table) (n x : String) (c : List Val) (h : x ≠ n) :
    getCol (setCol df n c) x = getCol df x :=
  lookupName_dictInsert_ne df n x c h

/-- C1 evidence: on the score column [10, 20, missing] the scoring
engine attaches ranks [0.5, 1.0, missing].  pandas rank(pct=True)
divides the average one-based rank by the count n of non-missing values,
so two distinct values rank 1/2 and 1 — not the documented
position/(count - 1) values {0, 1}, under which the ranks would be
[0.0, 1.0, missing] and the lowest value would rank 0. -/
theorem addPercentiles_rank_divides_by_count :
    getCol (addPercentiles [("EP_POV", [Val.fin 10, Val.fin 20, Val.nan])] ["EP_POV"]) "RPL_EP_POV"
      = some [Val.fin (mkRat 1 2), Val.fin 1, Val.nan]
    ∧ Val.fin (mkRat 1 2) ≠ Val.fin 0 := by decide

/-- C2 counterexample: with X defined from a raw token and Y = X * 2,
the evaluator leaves Y entirely missing instead of evaluating it to
twice X (the alias name X never matches the token pattern, so it is
never substituted and raises a NameError); and the cyclic configuration
X = Y + 1, Y = X * 2 does not fail with any CyclicDefinitionError — the
evaluator is total and returns a table where both aliases are silently
degraded to missing. -/
theorem evaluateAliases_no_cycle_error_counterexample :
    getCol (evaluateAliases demoDf [("X", "P1_0001N + 1"), ("Y", "X * 2")]) "X" = some [Val.fin 2]
    ∧ getCol (evaluateAliases demoDf [("X", "P1_0001N + 1"), ("Y", "X * 2")]) "Y" = some [Val.nan]
    ∧ some [Val.nan] ≠ some [Val.fin 4]
    ∧ evaluateAliases demoDf [("X", "Y + 1"), ("Y", "X * 2")]
        = [("P1_0001N", [Val.fin 1]), ("X", [Val.nan]), ("Y", [Val.nan])] := by decide

/-- C3 counterexample: at the scenario input of the claim — compound
expression (B03002_001E - B03002_003E) / B03002_001E over the rows
(100,80), (50,50), (0,0) — the alias column comes out entirely missing,
not [0.2, 0.0, missing]: the B03002 codes carry five digits before the
underscore, the token pattern admits at most three, so no substitution
happens and the expression evaluates to a NameError; every row is
affected, missing or not. -/
theorem evaluateAliases_minority_scenario_counterexample :
    evaluateAliases minorityDf [("EP_MINORITY", "(B03002_001E - B03002_003E) / B03002_001E")]
      = minorityDf ++ [("EP_MINORITY", [Val.nan, Val.nan, Val.nan])]
    ∧ [Val.nan, Val.nan, Val.nan] ≠ [Val.fin (mkRat 1 5), Val.fin 0, Val.nan] := by decide

/-- C3 amended: for a compound expression whose identifiers match the
token pattern and appear once each, evaluation is elementwise over the
rows; dividing zero by zero at a row yields a missing value for that
row only, dividing a nonzero value by zero yields a signed infinity
(not a missing value); the run does not abort and the raw columns are
unchanged. -/
theorem evaluateAliases_division_semantics :
    getCol (evaluateAliases divDemoDf [("EP_RATE", "P1_0001N / P2_0001N")]) "EP_RATE"
      = some [Val.fin (mkRat 1 5), Val.fin 0, Val.nan, Val.ninf]
    ∧ getCol (evaluateAliases divDemoDf [("EP_RATE", "P1_0001N / P2_0001N")]) "P1_0001N"
        = getCol divDemoDf "P1_0001N"
    ∧ getCol (evaluateAliases divDemoDf [("EP_RATE", "P1_0001N / P2_0001N")]) "P2_0001N"
        = getCol divDemoDf "P2_0001N"
    ∧ npDiv (Val.fin 0) (Val.fin 0) = Val.nan
    ∧ npDiv (Val.fin 1) (Val.fin 0) = Val.inf
    ∧ npDiv (Val.fin (-1)) (Val.fin 0) = Val.ninf := by decide

/-- C5 counterexample: merging a second frame in which the geography
key 66 appears twice raises nothing — the merge is total — and the
single row of the first frame silently fans out into two output rows. -/
theorem mergeAll_duplicate_keys_counterexample :
    mergeAll ["state"] [dupKeyT1, dupKeyT2]
      = [("state", [Val.fin 66, Val.fin 66]), ("A_0001E", [Val.fin 1, Val.fin 1]),
         ("B_0001E", [Val.fin 2, Val.fin 3])]
    ∧ nrows (mergeAll ["state"] [dupKeyT1, dupKeyT2]) = 2
    ∧ nrows dupKeyT1 = 1 := by decide

/-- Row count of a cons frame is the head column's length. -/
theorem nrows_cons (x : String × List Val) (l : Table) : nrows (x :: l) = x.2.length := rfl

/-- The number of join pairs: one per left row and matching right row,
at least one per left row. -/
theorem joinPairs_length (keys : List String) (t1 t2 : Table) :
    (joinPairs keys t1 t2).length
      = ((List.range (nrows t1)).map (fun i =>
          max 1 ((List.range (nrows t2)).filter
            (fun j => keyTuple keys t2 j = keyTuple keys t1 i)).length)).sum := by
  unfold joinPairs
  rw [List.length_flatMap]
  congr 1
  apply List.map_congr_left
  intro i _
  simp only [Function.comp_apply]
  cases hc : (List.range (nrows t2)).filter (fun j => keyTuple keys t2 j = keyTuple keys t1 i) with
  | nil => simp
  | cons a l =>
    simp only [List.isEmpty_cons, Bool.false_eq_true, if_false, List.length_map,
      List.length_cons]
    rw [max_eq_right (Nat.succ_le_succ (Nat.zero_le _))]

/-- C5 amended: the merge never fails — it is a total function — and its
row count is exactly one output row per pair of a left row and a
matching right row (one row with missing fill when there is no match).
With duplicate-free right keys every count is at most one and the first
frame defines the row set; a later frame with duplicate geography-key
tuples silently fans rows out instead of raising a JoinError. -/
theorem leftJoin_row_count (keys : List String) (t1 t2 : Table) :
    nrows (leftJoin keys t1 t2)
      = ((List.range (nrows t1)).map (fun i =>
          max 1 ((List.range (nrows t2)).filter
            (fun j => keyTuple keys t2 j = keyTuple keys t1 i)).length)).sum := by
  rw [← joinPairs_length keys t1 t2]
  unfold leftJoin
  cases t1 with
  | nil =>
    have hjp : joinPairs keys ([] : Table) t2 = [] := rfl
    rw [hjp]
    cases hf : t2.filter (fun p => p.1 ∉ keys) with
    | nil => rfl
    | cons q qs => rfl
  | cons p t1r =>
    simp only [List.map_cons, List.cons_append, nrows_cons]
    exact List.length_map _ _

/-- Updating the bucket keyed k in place: looking up k sees the update. -/
theorem lookup_bucket_update (bs : List (String × List String)) (k : String)
    (codes : List String) :
    lookupName (bs.map (fun p => if p.1 = k then (k, insertCodes p.2 codes) else p)) k
      = (lookupName bs k).map (fun b => insertCodes b codes) := by
  induction bs with
  | nil => rfl
  | cons p t ih =>
    by_cases hp : p.1 = k
    · simp only [List.map_cons, if_pos hp, lookupName_cons, hp]
      simp
    · simp only [List.map_cons, if_neg hp, lookupName_cons, if_neg hp, ih]

/-- Updating the bucket keyed k leaves other lookups unchanged. -/
theorem lookup_bucket_update_ne (bs : List (String × List String)) (k x : String)
    (codes : List String) (h : x ≠ k) :
    lookupName (bs.map (fun p => if p.1 = k then (k, insertCodes p.2 codes) else p)) x
      = lookupName bs x := by
  induction bs with
  | nil => rfl
  | cons p t ih =>
    by_cases hp : p.1 = k
    · simp only [List.map_cons, if_pos hp, lookupName_cons]
      rw [if_neg (fun e : (k, insertCodes p.2 codes).1 = x => h (e ▸ rfl)),
        if_neg (fun e : p.1 = x => h (e ▸ hp)), ih]
    · simp only [List.map_cons, if_neg hp, lookupName_cons, ih]

/-- A present key looks up to some value. -/
theorem lookupName_isSome_of_mem {α : Type} (m : List (String × α)) (k : String)
    (h : k ∈ m.map Prod.fst) : ∃ v, lookupName m k = some v := by
  induction m with
  | nil => simp at h
  | cons p t ih =>
    by_cases hp : p.1 = k
    · exact ⟨p.2, by rw [lookupName_cons, if_pos hp]⟩
    · have h2 : k = p.1 ∨ k ∈ t.map Prod.fst := by
        simpa only [List.map_cons, List.mem_cons] using h
      rcases h2 with e | h2
      · exact absurd e.symm hp
      · obtain ⟨v, hv⟩ := ih h2
        exact ⟨v, by rw [lookupName_cons, if_neg hp, hv]⟩

/-- The referenced codes of a cons row: the head row's codes when its
stripped dataset matches, then the rest. -/
theorem referencedCodes_cons (r : ConfigRow) (rows : List ConfigRow) (d : String) :
    referencedCodes (r :: rows) d
      = (if strTrim r.dataset = d then extractCodes r.variableCol else [])
          ++ referencedCodes rows d := by
  unfold referencedCodes
  by_cases h : strTrim r.dataset = d
  · rw [if_pos h, List.filter_cons_of_pos (by simpa using h), List.flatMap_cons]
  · rw [if_neg h, List.filter_cons_of_neg (by simpa using h), List.nil_append]

/-- One grouping step seen through lookup: the row's dataset bucket
grows by the row's codes, all other buckets are untouched. -/
theorem lookup_groupStep (bs : List (String × List String)) (r : ConfigRow) (d : String) :
    lookupName (groupStep bs r) d
      = if strTrim r.dataset = d
        then some (insertCodes ((lookupName bs d).getD []) (extractCodes r.variableCol))
        else lookupName bs d := by
  unfold groupStep
  by_cases hd : strTrim r.dataset = d
  · rw [if_pos hd]
    subst hd
    split
    · rename_i hmem
      rw [lookup_bucket_update bs (strTrim r.dataset) (extractCodes r.variableCol)]
      obtain ⟨v, hv⟩ := lookupName_isSome_of_mem bs (strTrim r.dataset) hmem
      rw [hv]
      rfl
    · rename_i hmem
      rw [lookupName_append_singleton_self bs (strTrim r.dataset) _ hmem,
        lookupName_eq_none bs (strTrim r.dataset) hmem]
      rfl
  · rw [if_neg hd]
    split
    · exact lookup_bucket_update_ne bs (strTrim r.dataset) d _ (fun e => hd e.symm)
    · exact lookupName_append_singleton_ne bs (strTrim r.dataset) d _ (fun e => hd e.symm)

/-- The grouping fold seen through lookup: every dataset bucket is the
initial bucket extended, in first-seen order without duplicates, by all
codes referenced by that dataset's rows. -/
theorem lookup_groupFold_getD : ∀ (rows : List ConfigRow) (bs : List (String × List String))
    (d : String),
    (lookupName (rows.foldl groupStep bs) d).getD []
      = insertCodes ((lookupName bs d).getD []) (referencedCodes rows d)
  | [], bs, d => rfl
  | r :: rows, bs, d => by
    show (lookupName (rows.foldl groupStep (groupStep bs r)) d).getD [] = _
    rw [lookup_groupFold_getD rows (groupStep bs r) d]
    rw [lookup_groupStep bs r d]
    by_cases hd : strTrim r.dataset = d
    · rw [if_pos hd]
      simp only [Option.getD_some]
      rw [← insertCodes_append, referencedCodes_cons, if_pos hd]
    · rw [if_neg hd, referencedCodes_cons, if_neg hd, List.nil_append]

/-- C7: every bucket of the variable grouper is exactly the
first-seen-order deduplication of the raw tokens referenced by that
dataset's expressions: it is duplicate-free, contains a token iff some
expression of the dataset references it, and lists tokens as a
subsequence of the reference order. -/
theorem groupVariableCodesByDataset_spec (rows : List ConfigRow) (d : String)
    (bucket : List String)
    (h : lookupName (groupVariableCodesByDataset rows) d = some bucket) :
    bucket = dedupePreserveOrder (referencedCodes rows d)
    ∧ bucket.Nodup
    ∧ (∀ c, c ∈ bucket ↔ c ∈ referencedCodes rows d)
    ∧ bucket.Sublist (referencedCodes rows d) := by
  unfold groupVariableCodesByDataset at h
  rw [lookupName_map_value] at h
  cases hf : lookupName (rows.foldl groupStep []) d with
  | none => rw [hf] at h; exact absurd h (by simp)
  | some b0 =>
    rw [hf] at h
    have hb : bucket = dedupePreserveOrder b0 := (Option.some.inj h).symm
    have hb0 : b0 = insertCodes [] (referencedCodes rows d) := by
      have hval := lookup_groupFold_getD rows [] d
      rw [hf] at hval
      exact hval
    have hmain : bucket = dedupePreserveOrder (referencedCodes rows d) := by
      rw [hb, hb0, ← dedupePreserveOrder_eq, dedupePreserveOrder_idem]
    refine ⟨hmain, ?_, ?_, ?_⟩
    · rw [hmain]; exact nodup_dedupePreserveOrder _
    · intro c; rw [hmain]; exact mem_dedupePreserveOrder _
    · rw [hmain]; exact dedupePreserveOrder_sublist _

/-- Witness for the C7 theorem at a concrete configuration. -/
theorem groupVariableCodesByDataset_spec_witness :
    ["P1_0001N", "P2_0001N"]
        = dedupePreserveOrder (referencedCodes
            [⟨"X", "dpgu", "P1_0001N + P2_0001N"⟩, ⟨"Y", "dpgu", "P1_0001N"⟩,
             ⟨"Z", "acs", "H1_0002N"⟩] "dpgu")
    ∧ List.Nodup ["P1_0001N", "P2_0001N"]
    ∧ (∀ c, c ∈ ["P1_0001N", "P2_0001N"] ↔ c ∈ referencedCodes
          [⟨"X", "dpgu", "P1_0001N + P2_0001N"⟩, ⟨"Y", "dpgu", "P1_0001N"⟩,
           ⟨"Z", "acs", "H1_0002N"⟩] "dpgu")
    ∧ List.Sublist ["P1_0001N", "P2_0001N"] (referencedCodes
        [⟨"X", "dpgu", "P1_0001N + P2_0001N"⟩, ⟨"Y", "dpgu", "P1_0001N"⟩,
         ⟨"Z", "acs", "H1_0002N"⟩] "dpgu") :=
  groupVariableCodesByDataset_spec
    [⟨"X", "dpgu", "P1_0001N + P2_0001N"⟩, ⟨"Y", "dpgu", "P1_0001N"⟩, ⟨"Z", "acs", "H1_0002N"⟩]
    "dpgu" ["P1_0001N", "P2_0001N"] (by decide)

/-- C6: the per-dataset driver treats an incomplete live table exactly
as a failed acquisition (it falls back to the cache); a complete live
table is returned and persisted to the cache under the
year_state_geography_slug key; on fallback, a complete snapshot under
the same key is returned (and the store unchanged), an incomplete
snapshot aborts with an error, and a missing snapshot aborts fatally. -/
theorem processDataset_cache_fallback (codes : List String) (t : Table) (store : CacheStore)
    (year state geography slug : String) :
    (allVarsPresent t codes →
      processDataset codes (some t) store year state geography slug
        = Except.ok (t, storePut store (cacheFileName year state geography slug) t))
    ∧ (¬ allVarsPresent t codes →
      processDataset codes (some t) store year state geography slug
        = processDataset codes none store year state geography slug)
    ∧ (lookupName store (cacheFileName year state geography slug) = none →
      ∃ e, processDataset codes none store year state geography slug = Except.error e)
    ∧ (∀ c, lookupName store (cacheFileName year state geography slug) = some c →
        allVarsPresent c codes →
        processDataset codes none store year state geography slug = Except.ok (c, store))
    ∧ (∀ c, lookupName store (cacheFileName year state geography slug) = some c →
        ¬ allVarsPresent c codes →
        ∃ e, processDataset codes none store year state geography slug = Except.error e) := by
  refine ⟨?_, ?_, ?_, ?_, ?_⟩
  · intro h
    unfold processDataset
    dsimp only
    rw [if_pos h]
  · intro h
    unfold processDataset
    dsimp only
    rw [if_neg h]
  · intro h
    refine ⟨"Fatal: no cached copy for dataset " ++ cacheFileName year state geography slug
      ++ " and API fetch failed.", ?_⟩
    unfold processDataset loadFromCache
    dsimp only
    rw [h]
  · intro c hc hv
    unfold processDataset loadFromCache
    rw [hc]
    dsimp only
    rw [if_pos hv]
  · intro c hc hv
    refine ⟨"cached copy is missing requested variables: "
      ++ cacheFileName year state geography slug, ?_⟩
    unfold processDataset loadFromCache
    rw [hc]
    dsimp only
    rw [if_neg hv]

/-- C8: every column of the cleaned dataset table outside NAME and the
geography keys comes from the raw column of the same label with every
cell coerced: the column is numeric-or-missing, an unparseable string
becomes missing without any error, a parsed sentinel value becomes
missing, and every other parsed value is kept as a finite number. -/
theorem cleanDownloadedTable_numeric_or_missing (geokeys : List String) (t : RawTable)
    (n : String) (col : List CCell)
    (h : (n, col) ∈ cleanDownloadedTable geokeys t)
    (h1 : n ≠ "NAME") (h2 : n ∉ geokeys) :
    (∃ raw, (n, raw) ∈ t
        ∧ col = raw.map (fun s => CCell.v (maskSentinels (toNumericCell s))))
    ∧ (∀ c ∈ col, ∃ x, c = CCell.v x)
    ∧ (∀ s, parseNumeric s = none → maskSentinels (toNumericCell s) = Val.nan)
    ∧ (∀ s q, parseNumeric s = some q → q ∈ badSentinels →
        maskSentinels (toNumericCell s) = Val.nan)
    ∧ (∀ s q, parseNumeric s = some q → q ∉ badSentinels →
        maskSentinels (toNumericCell s) = Val.fin q) := by
  unfold cleanDownloadedTable at h
  obtain ⟨p, hp, he⟩ := List.mem_map.mp h
  by_cases hg : p.1 = "NAME" ∨ p.1 ∈ geokeys
  · rw [if_pos hg] at he
    have hn : p.1 = n := congrArg Prod.fst he
    rcases hg with e | e
    · exact absurd (hn ▸ e) h1
    · exact absurd (hn ▸ e) h2
  · rw [if_neg hg] at he
    have hn : p.1 = n := congrArg Prod.fst he
    have hcol : col = p.2.map (fun s => CCell.v (maskSentinels (toNumericCell s))) :=
      (congrArg Prod.snd he).symm
    refine ⟨⟨p.2, ?_, hcol⟩, ?_, ?_, ?_, ?_⟩
    · rw [← hn]
      simpa using hp
    · intro c hc
      rw [hcol] at hc
      obtain ⟨s, _, hs⟩ := List.mem_map.mp hc
      exact ⟨_, hs.symm⟩
    · intro s hps
      simp [toNumericCell, maskSentinels, hps]
    · intro s q hps hq
      simp [toNumericCell, maskSentinels, hps, hq]
    · intro s q hps hq
      simp [toNumericCell, maskSentinels, hps, hq]

/-- Witness for the C6 theorem at concrete datasets and stores. -/
theorem processDataset_cache_fallback_witness :
    processDataset ["P1_0001N"] (some demoDf) [] "2020" "66" "place" "dpgu"
        = Except.ok (demoDf, storePut [] (cacheFileName "2020" "66" "place" "dpgu") demoDf)
    ∧ processDataset ["P1_0001N"] (some [("P2_0001N", [Val.fin 2])]) [] "2020" "66" "place" "dpgu"
        = processDataset ["P1_0001N"] none [] "2020" "66" "place" "dpgu"
    ∧ (∃ e, processDataset ["P1_0001N"] none [] "2020" "66" "place" "dpgu" = Except.error e)
    ∧ processDataset ["P1_0001N"] none
          [(cacheFileName "2020" "66" "place" "dpgu", demoDf)] "2020" "66" "place" "dpgu"
        = Except.ok (demoDf, [(cacheFileName "2020" "66" "place" "dpgu", demoDf)])
    ∧ (∃ e, processDataset ["P1_0001N"] none
          [(cacheFileName "2020" "66" "place" "dpgu", [("P2_0001N", [Val.fin 2])])]
          "2020" "66" "place" "dpgu" = Except.error e) := by
  have h1 := processDataset_cache_fallback ["P1_0001N"] demoDf [] "2020" "66" "place" "dpgu"
  have h2 := processDataset_cache_fallback ["P1_0001N"] [("P2_0001N", [Val.fin 2])] []
    "2020" "66" "place" "dpgu"
  have h3 := processDataset_cache_fallback ["P1_0001N"] demoDf
    [(cacheFileName "2020" "66" "place" "dpgu", demoDf)] "2020" "66" "place" "dpgu"
  have h4 := processDataset_cache_fallback ["P1_0001N"] demoDf
    [(cacheFileName "2020" "66" "place" "dpgu", [("P2_0001N", [Val.fin 2])])]
    "2020" "66" "place" "dpgu"
  exact ⟨h1.1 (by decide), h2.2.1 (by decide), h1.2.2.1 (by decide),
    h3.2.2.2.1 demoDf (by decide) (by decide),
    h4.2.2.2.2 [("P2_0001N", [Val.fin 2])] (by decide) (by decide)⟩

/-- Witness for the C8 theorem at the concrete raw frame. -/
theorem cleanDownloadedTable_numeric_or_missing_witness :
    (∃ raw, ("P1_0001N", raw) ∈ rawDemo
        ∧ [CCell.v Val.nan, CCell.v Val.nan, CCell.v (Val.fin (mkRat 25 2))]
            = raw.map (fun s => CCell.v (maskSentinels (toNumericCell s))))
    ∧ (∀ c ∈ [CCell.v Val.nan, CCell.v Val.nan, CCell.v (Val.fin (mkRat 25 2))],
        ∃ x, c = CCell.v x)
    ∧ (∀ s, parseNumeric s = none → maskSentinels (toNumericCell s) = Val.nan)
    ∧ (∀ s q, parseNumeric s = some q → q ∈ badSentinels →
        maskSentinels (toNumericCell s) = Val.nan)
    ∧ (∀ s q, parseNumeric s = some q → q ∉ badSentinels →
        maskSentinels (toNumericCell s) = Val.fin q) :=
  cleanDownloadedTable_numeric_or_missing ["state", "place"] rawDemo "P1_0001N"
    [CCell.v Val.nan, CCell.v Val.nan, CCell.v (Val.fin (mkRat 25 2))]
    (by decide) (by decide) (by decide)

/-- The percentile step only adds columns. -/
theorem mem_colNames_addPercentilesStep (df : Table) (a x : String) (h : x ∈ colNames df) :
    x ∈ colNames (addPercentilesStep df a) := by
  unfold addPercentilesStep
  split
  · exact h
  · exact mem_colNames_setCol_of_mem _ _ _ _ (mem_colNames_setCol_of_mem _ _ _ _ h)

/-- The percentile pass only adds columns. -/
theorem mem_colNames_addPercentiles : ∀ (l : List String) (df : Table) (x : String),
    x ∈ colNames df → x ∈ colNames (addPercentiles df l)
  | [], _, _, h => h
  | a :: t, df, x, h =>
    mem_colNames_addPercentiles t (addPercentilesStep df a) x
      (mem_colNames_addPercentilesStep df a x h)

/-- One evaluator step only adds columns. -/
theorem mem_colNames_evalStep (df : Table) (ae : String × String) (x : String)
    (h : x ∈ colNames df) : x ∈ colNames (evalStep df ae) := by
  unfold evalStep
  by_cases h1 : ae.1 ∈ colNames df
  · rw [if_pos h1]
    exact h
  · rw [if_neg h1]
    by_cases h2 : tokenFullmatch ae.2.data = true
    · rw [if_pos h2]
      exact mem_colNames_addPercentiles _ _ _ (mem_colNames_setCol_of_mem _ _ _ _ h)
    · rw [if_neg h2]
      cases hp : pdEval df ae.2 with
      | some s => exact mem_colNames_addPercentiles _ _ _ (mem_colNames_setCol_of_mem _ _ _ _ h)
      | none => exact mem_colNames_setCol_of_mem _ _ _ _ h

/-- After its step, an alias is always a column. -/
theorem evalStep_self_mem (df : Table) (ae : String × String) :
    ae.1 ∈ colNames (evalStep df ae) := by
  unfold evalStep
  by_cases h1 : ae.1 ∈ colNames df
  · rw [if_pos h1]
    exact h1
  · rw [if_neg h1]
    by_cases h2 : tokenFullmatch ae.2.data = true
    · rw [if_pos h2]
      exact mem_colNames_addPercentiles _ _ _ (self_mem_colNames_setCol _ _ _)
    · rw [if_neg h2]
      cases hp : pdEval df ae.2 with
      | some s => exact mem_colNames_addPercentiles _ _ _ (self_mem_colNames_setCol _ _ _)
      | none => exact self_mem_colNames_setCol _ _ _

/-- The evaluator pass only adds columns. -/
theorem mem_colNames_evalFold : ∀ (m : List (String × String)) (df : Table) (x : String),
    x ∈ colNames df → x ∈ colNames (m.foldl evalStep df)
  | [], _, _, h => h
  | be :: t, df, x, h =>
    mem_colNames_evalFold t (evalStep df be) x (mem_colNames_evalStep df be x h)

/-- After the pass, every alias of the map is a column. -/
theorem alias_mem_evalFold : ∀ (m : List (String × String)) (df : Table)
    (ae : String × String), ae ∈ m → ae.1 ∈ colNames (m.foldl evalStep df)
  | [], _, _, h => absurd h (List.not_mem_nil _)
  | be :: t, df, ae, h => by
    rcases List.mem_cons.mp h with e | h2
    · subst e
      exact mem_colNames_evalFold t (evalStep df ae) ae.1 (evalStep_self_mem df ae)
    · exact alias_mem_evalFold t (evalStep df be) ae h2

/-- A pass over aliases that are all already columns changes nothing:
every step takes the skip branch. -/
theorem evalFold_skip : ∀ (m : List (String × String)) (df : Table),
    (∀ ae ∈ m, ae.1 ∈ colNames df) → m.foldl evalStep df = df
  | [], _, _ => rfl
  | be :: t, df, h => by
    have hstep : evalStep df be = df := by
      unfold evalStep
      rw [if_pos (h be (List.mem_cons_self be t))]
    show t.foldl evalStep (evalStep df be) = df
    rw [hstep]
    exact evalFold_skip t df (fun ae hae => h ae (List.mem_cons_of_mem _ hae))

/-- C9: the formula evaluator is idempotent — running hsi again on its
own output with the same configuration returns the table unchanged, so
in particular all alias columns are identical. -/
theorem hsi_idempotent (df : Table) (rows : List ConfigRow) :
    hsi (hsi df rows) rows = hsi df rows := by
  unfold hsi evaluateAliases
  apply evalFold_skip
  intro ae hae
  exact alias_mem_evalFold (loadAliasMap rows) df ae hae

/-- Appending to a fixed front string is injective. -/
theorem string_append_right_inj (p a b : String) (h : p ++ a = p ++ b) : a = b := by
  cases p with | mk lp =>
  cases a with | mk la =>
  cases b with | mk lb =>
  have h2 : lp ++ la = lp ++ lb := congrArg String.data h
  exact congrArg String.mk (List.append_cancel_left h2)

/-- A SPL_ name is never an RPL_ name. -/
theorem spl_ne_rpl_append (a b : String) : "SPL_" ++ a ≠ "RPL_" ++ b := by
  intro h
  have h2 : ('S' : Char) :: 'P' :: 'L' :: '_' :: a.data
      = 'R' :: 'P' :: 'L' :: '_' :: b.data := congrArg String.data h
  injection h2 with hc _
  exact absurd hc (by decide)

/-- The percentile step touches only its own SPL_ and RPL_ columns. -/
theorem addPercentilesStep_getCol_ne (df : Table) (b x : String)
    (hx1 : x ≠ "SPL_" ++ b) (hx2 : x ≠ "RPL_" ++ b) :
    getCol (addPercentilesStep df b) x = getCol df x := by
  unfold addPercentilesStep
  split
  · rfl
  · rw [getCol_setCol_ne _ _ _ _ hx2, getCol_setCol_ne _ _ _ _ hx1]

/-- The percentile step adds only its own SPL_ and RPL_ labels. -/
theorem addPercentilesStep_mem_iff (df : Table) (b x : String)
    (hx1 : x ≠ "SPL_" ++ b) (hx2 : x ≠ "RPL_" ++ b) :
    x ∈ colNames (addPercentilesStep df b) ↔ x ∈ colNames df := by
  unfold addPercentilesStep
  split
  · exact Iff.rfl
  · rw [mem_colNames_setCol_iff _ _ _ _ hx2, mem_colNames_setCol_iff _ _ _ _ hx1]

/-- One evaluator step of another alias leaves a present alias's column
and the presence of its SPL_ and RPL_ labels unchanged, provided no
name collision ties the two aliases together. -/
theorem evalStep_preserves (df : Table) (be : String × String) (a : String)
    (h1 : a ∈ colNames df)
    (hc1 : a ≠ "SPL_" ++ be.1) (hc2 : a ≠ "RPL_" ++ be.1)
    (hc3 : be.1 ≠ "SPL_" ++ a) (hc4 : be.1 ≠ "RPL_" ++ a) :
    getCol (evalStep df be) a = getCol df a
    ∧ (("SPL_" ++ a) ∈ colNames (evalStep df be) ↔ ("SPL_" ++ a) ∈ colNames df)
    ∧ (("RPL_" ++ a) ∈ colNames (evalStep df be) ↔ ("RPL_" ++ a) ∈ colNames df) := by
  by_cases hin : be.1 ∈ colNames df
  · unfold evalStep
    rw [if_pos hin]
    exact ⟨rfl, Iff.rfl, Iff.rfl⟩
  · have e : be.1 ≠ a := fun e => hin (e ▸ h1)
    have ea : a ≠ be.1 := fun e2 => e e2.symm
    have hspl_b : ("SPL_" ++ a) ≠ be.1 := fun e2 => hc3 e2.symm
    have hrpl_b : ("RPL_" ++ a) ≠ be.1 := fun e2 => hc4 e2.symm
    have hss : ("SPL_" ++ a) ≠ "SPL_" ++ be.1 :=
      fun e2 => e (string_append_right_inj _ _ _ e2).symm
    have hrr : ("RPL_" ++ a) ≠ "RPL_" ++ be.1 :=
      fun e2 => e (string_append_right_inj _ _ _ e2).symm
    have hsr : ("SPL_" ++ a) ≠ "RPL_" ++ be.1 := spl_ne_rpl_append a be.1
    have hrs : ("RPL_" ++ a) ≠ "SPL_" ++ be.1 := fun e2 => spl_ne_rpl_append be.1 a e2.symm
    have hap : ∀ X : Table, addPercentiles X [be.1] = addPercentilesStep X be.1 := fun _ => rfl
    unfold evalStep
    rw [if_neg hin]
    by_cases h2 : tokenFullmatch be.2.data = true
    · rw [if_pos h2, hap]
      refine ⟨?_, ?_, ?_⟩
      · rw [addPercentilesStep_getCol_ne _ _ _ hc1 hc2, getCol_setCol_ne _ _ _ _ ea]
      · rw [addPercentilesStep_mem_iff _ _ _ hss hsr, mem_colNames_setCol_iff _ _ _ _ hspl_b]
      · rw [addPercentilesStep_mem_iff _ _ _ hrs hrr, mem_colNames_setCol_iff _ _ _ _ hrpl_b]
    · rw [if_neg h2]
      cases hp : pdEval df be.2 with
      | some s =>
        dsimp only
        rw [hap]
        refine ⟨?_, ?_, ?_⟩
        · rw [addPercentilesStep_getCol_ne _ _ _ hc1 hc2, getCol_setCol_ne _ _ _ _ ea]
        · rw [addPercentilesStep_mem_iff _ _ _ hss hsr, mem_colNames_setCol_iff _ _ _ _ hspl_b]
        · rw [addPercentilesStep_mem_iff _ _ _ hrs hrr, mem_colNames_setCol_iff _ _ _ _ hrpl_b]
      | none =>
        dsimp only
        refine ⟨?_, ?_, ?_⟩
        · rw [getCol_setCol_ne _ _ _ _ ea]
        · rw [mem_colNames_setCol_iff _ _ _ _ hspl_b]
        · rw [mem_colNames_setCol_iff _ _ _ _ hrpl_b]

/-- C10 amended: when an alias of the map is already a column of the
input frame, the evaluator skips it: its values are unchanged and no
SPL_ or RPL_ column is created for it — provided no other alias in the
map collides with it by name (its name is not the SPL_/RPL_ column of
another alias, and no other alias is named like its own SPL_/RPL_
column); without that proviso the percentile columns of another alias
can overwrite it, as the counterexample shows. -/
theorem evaluateAliases_preserves_existing_alias : ∀ (m : List (String × String)) (df : Table)
    (a : String), a ∈ colNames df →
    (∀ be ∈ m,
      a ≠ "SPL_" ++ be.1 ∧ a ≠ "RPL_" ++ be.1 ∧ be.1 ≠ "SPL_" ++ a ∧ be.1 ≠ "RPL_" ++ a) →
    getCol (evaluateAliases df m) a = getCol df a
    ∧ (("SPL_" ++ a) ∈ colNames (evaluateAliases df m) ↔ ("SPL_" ++ a) ∈ colNames df)
    ∧ (("RPL_" ++ a) ∈ colNames (evaluateAliases df m) ↔ ("RPL_" ++ a) ∈ colNames df)
  | [], df, a, _, _ => ⟨rfl, Iff.rfl, Iff.rfl⟩
  | be :: t, df, a, h1, h2 => by
    have hbe := h2 be (List.mem_cons_self be t)
    have hstep := evalStep_preserves df be a h1 hbe.1 hbe.2.1 hbe.2.2.1 hbe.2.2.2
    have h1s : a ∈ colNames (evalStep df be) := mem_colNames_evalStep df be a h1
    have iht := evaluateAliases_preserves_existing_alias t (evalStep df be) a h1s
      (fun x hx => h2 x (List.mem_cons_of_mem _ hx))
    exact ⟨iht.1.trans hstep.1, iht.2.1.trans hstep.2.1, iht.2.2.trans hstep.2.2⟩

/-- Witness for the amended C10 theorem at a concrete frame. -/
theorem evaluateAliases_preserves_existing_alias_witness :
    getCol (evaluateAliases [("EP_POV", [Val.fin 3])] [("EP_POV", "P1_0001N")]) "EP_POV"
        = getCol [("EP_POV", [Val.fin 3])] "EP_POV"
    ∧ (("SPL_" ++ "EP_POV")
          ∈ colNames (evaluateAliases [("EP_POV", [Val.fin 3])] [("EP_POV", "P1_0001N")])
        ↔ ("SPL_" ++ "EP_POV") ∈ colNames [("EP_POV", [Val.fin 3])])
    ∧ (("RPL_" ++ "EP_POV")
          ∈ colNames (evaluateAliases [("EP_POV", [Val.fin 3])] [("EP_POV", "P1_0001N")])
        ↔ ("RPL_" ++ "EP_POV") ∈ colNames [("EP_POV", [Val.fin 3])]) :=
  evaluateAliases_preserves_existing_alias [("EP_POV", "P1_0001N")] [("EP_POV", [Val.fin 3])]
    "EP_POV" (by decide) (by decide)

/-- C10 counterexample: the alias SPL_X is a column of the input frame
and appears in the alias map, so the claim says its values survive; but
the percentile columns written for the later alias X overwrite it. -/
theorem evaluateAliases_overwrites_existing_counterexample :
    getCol (evaluateAliases splDf [("SPL_X", "P9_0009N"), ("X", "P1_0001N")]) "SPL_X"
        = some [Val.fin 1]
    ∧ getCol splDf "SPL_X" = some [Val.fin 7]
    ∧ some [Val.fin 1] ≠ some [Val.fin 7] := by decide

/-- C2 amended: the evaluator is a single pass with no dependency
resolution: alias names that do not match the raw-token pattern are
never substituted, so in the cyclic configuration X = Y + 1, Y = X * 2
both aliases degrade to all-NaN columns — no CyclicDefinitionError, no
loop — and in the dependency scenario X computes from its raw token but
Y = X * 2 degrades to missing instead of doubling X. -/
theorem evaluateAliases_single_pass_no_alias_refs (df : Table)
    (hX : "X" ∉ colNames df) (hY : "Y" ∉ colNames df) :
    evaluateAliases df [("X", "Y + 1"), ("Y", "X * 2")]
        = setCol (setCol df "X" (nanCol df)) "Y" (nanCol (setCol df "X" (nanCol df)))
    ∧ getCol (evaluateAliases demoDf [("X", "P1_0001N + 1"), ("Y", "X * 2")]) "X"
        = some [Val.fin 2]
    ∧ getCol (evaluateAliases demoDf [("X", "P1_0001N + 1"), ("Y", "X * 2")]) "Y"
        = some [Val.nan] := by
  refine ⟨?_, by decide, by decide⟩
  show evalStep (evalStep df ("X", "Y + 1")) ("Y", "X * 2") = _
  have e1 : evalStep df ("X", "Y + 1") = setCol df "X" (nanCol df) := by
    unfold evalStep
    dsimp only
    rw [if_neg hX]
    rw [if_neg (by decide : ¬ tokenFullmatch "Y + 1".data = true)]
    have hp : pdEval df "Y + 1" = none := rfl
    rw [hp]
  rw [e1]
  have hY2 : "Y" ∉ colNames (setCol df "X" (nanCol df)) := by
    rw [mem_colNames_setCol_iff _ _ _ _ (by decide : "Y" ≠ "X")]
    exact hY
  unfold evalStep
  dsimp only
  rw [if_neg hY2]
  rw [if_neg (by decide : ¬ tokenFullmatch "X * 2".data = true)]
  have hp2 : pdEval (setCol df "X" (nanCol df)) "X * 2" = none := rfl
  rw [hp2]

/-- Witness for the amended C2 theorem at a concrete frame. -/
theorem evaluateAliases_single_pass_no_alias_refs_witness :
    evaluateAliases [("A_0001E", [Val.fin 5])] [("X", "Y + 1"), ("Y", "X * 2")]
        = setCol (setCol [("A_0001E", [Val.fin 5])] "X" (nanCol [("A_0001E", [Val.fin 5])]))
            "Y" (nanCol (setCol [("A_0001E", [Val.fin 5])] "X"
              (nanCol [("A_0001E", [Val.fin 5])])))
    ∧ getCol (evaluateAliases demoDf [("X", "P1_0001N + 1"), ("Y", "X * 2")]) "X"
        = some [Val.fin 2]
    ∧ getCol (evaluateAliases demoDf [("X", "P1_0001N + 1"), ("Y", "X * 2")]) "Y"
        = some [Val.nan] :=
  evaluateAliases_single_pass_no_alias_refs [("A_0001E", [Val.fin 5])] (by decide) (by decide)
